import Mathlib

/-!
Verification of the glossary data model and AsciiDoc renderer of the
"words-in-swedenborg" repository (`src/glossary_entry.py`,
`src/json_to_adoc.py`).  The Python code is embedded shallowly: strings
are Lean `String`s, dictionaries become association lists kept in
insertion order, and the recursive entry renderer is given an explicit
fuel parameter so that (non-)termination of the Python recursion becomes
a statement about the existence of sufficient fuel.
-/

/-! ### Character/string helpers (models of the Python `str` methods used) -/

/-- Model of Python `s.replace(a, b)` for single-character `a`, `b`. -/
def replaceChar (a b : Char) (s : String) : String :=
  String.mk (s.data.map (fun c => if c = a then b else c))

/-- Model of Python `str.lower` (ASCII data, as in the glossary). -/
def lowerStr (s : String) : String :=
  String.mk (s.data.map Char.toLower)

/-- Model of Python `str.upper` (ASCII data, as in the glossary). -/
def upperStr (s : String) : String :=
  String.mk (s.data.map Char.toUpper)

/-- Model of Python `str.strip`: drop leading and trailing whitespace. -/
def stripStr (s : String) : String :=
  String.mk (((s.data.dropWhile Char.isWhitespace).reverse.dropWhile
    Char.isWhitespace).reverse)

/-- Model of Python `sep.join(parts)`. -/
def joinSep (sep : String) : List String → String
  | [] => ""
  | [x] => x
  | x :: y :: xs => x ++ sep ++ joinSep sep (y :: xs)

/-- Model of Python `s.split(c)` for a single-character separator. -/
def splitOnChar (c : Char) : List Char → List (List Char)
  | [] => [[]]
  | x :: xs =>
    if x = c then [] :: splitOnChar c xs
    else
      match splitOnChar c xs with
      | [] => [[x]]
      | y :: ys => (x :: y) :: ys

/-! ### `format_text` (src/json_to_adoc.py lines 19-48)

The two regular expressions of `format_text` are modelled by a direct
left-to-right scan over the character list.  `_\|([^|]+)\|_` matches, at
a given position, an underscore, a bar, one or more non-bar characters,
a bar and an underscore; `\|([^|]+)\|` the same without the underscores.
`re.sub` tries the pattern at each position and, on success, continues
scanning after the consumed text. -/

def upperChars (l : List Char) : List Char := l.map Char.toUpper

/-- Attempt to match `_\|([^|]+)\|_` at the head of the character list;
on success return the captured group and the remainder after the match. -/
def tryItalicAt : List Char → Option (List Char × List Char)
  | '_' :: '|' :: t =>
    (match t.dropWhile (fun c => c ≠ '|') with
     | '|' :: '_' :: t2 =>
       let w := t.takeWhile (fun c => c ≠ '|')
       if w.isEmpty then none else some (w, t2)
     | _ => none)
  | _ => none

/-- Attempt to match `\|([^|]+)\|` at the head of the character list. -/
def tryPlainAt : List Char → Option (List Char × List Char)
  | '|' :: t =>
    (match t.dropWhile (fun c => c ≠ '|') with
     | '|' :: t2 =>
       let w := t.takeWhile (fun c => c ≠ '|')
       if w.isEmpty then none else some (w, t2)
     | _ => none)
  | _ => none

/-- One fuelled pass of `re.sub` with the italic-keyword pattern,
replacing each match by `_**WORD**_` (group uppercased). -/
def subItalicAux : Nat → List Char → List Char
  | 0, l => l
  | _ + 1, [] => []
  | n + 1, c :: cs =>
    match tryItalicAt (c :: cs) with
    | some (w, rest) =>
      "_**".data ++ upperChars w ++ "**_".data ++ subItalicAux n rest
    | none => c :: subItalicAux n cs

/-- One fuelled pass of `re.sub` with the plain-keyword pattern,
replacing each match by `**WORD**` (group uppercased). -/
def subPlainAux : Nat → List Char → List Char
  | 0, l => l
  | _ + 1, [] => []
  | n + 1, c :: cs =>
    match tryPlainAt (c :: cs) with
    | some (w, rest) =>
      "**".data ++ upperChars w ++ "**".data ++ subPlainAux n rest
    | none => c :: subPlainAux n cs

/-- The italic-keyword substitution pass (`re.sub` at lines 32-36). -/
def applyItalic (l : List Char) : List Char := subItalicAux l.length l

/-- The plain-keyword substitution pass (`re.sub` at lines 42-46). -/
def applyPlain (l : List Char) : List Char := subPlainAux l.length l

/-- `format_text` (src/json_to_adoc.py): the italic-keyword pattern is
substituted first, then the plain-keyword pattern. -/
def format_text (s : String) : String :=
  String.mk (applyPlain (applyItalic s.data))

/-! ### Data model (src/glossary_entry.py)

`GlossaryEntry` mirrors the Python dataclass field for field.  Optional
string fields are `Option String`; Python's truthiness test on such a
field (`if entry.plural:`) is `optTruthy`, which is false both for
`None` and for the empty string. -/

/-- `to_slug` (src/glossary_entry.py lines 17-24): lowercase, strip,
replace spaces by hyphens. -/
def to_slug (word : String) : String :=
  replaceChar ' ' '-' (stripStr (lowerStr word))

/-- `slug_to_word` (src/glossary_entry.py lines 27-29): replace hyphens
by spaces. -/
def slug_to_word (slug : String) : String :=
  replaceChar '-' ' ' slug

/-- The `GlossaryEntry` dataclass (src/glossary_entry.py lines 32-67). -/
structure GlossaryEntry where
  word : String
  slug : String
  definitions : List String
  origin : Option String := none
  latin_word : Option String := none
  part_of_speech : Option String := none
  pronunciation : Option String := none
  plural : Option String := none
  archaic_usage : Option String := none
  theological_term : Option String := none
  new_word : Bool := false
  opposite_slug : Option String := none
  also_translated : List String := []
  see_also : List String := []
  parent : Option String := none
deriving DecidableEq, Repr

/-- Python truthiness of an `Optional[str]` value: `None` and `""` are
falsy, every other string is truthy. -/
def optTruthy : Option String → Bool
  | none => false
  | some s => s ≠ ""

/-- `GlossaryEntry.has_parent` (line 109-111): the parent field `is not
None` (no truthiness here). -/
def has_parent (e : GlossaryEntry) : Bool := e.parent.isSome

/-- `GlossaryEntry.has_opposite` (line 105-107). -/
def has_opposite (e : GlossaryEntry) : Bool := e.opposite_slug.isSome

/-- The `Glossary` class (src/glossary_entry.py lines 140-272).  The
`_entries` dict is an association list `key -> entry` in insertion
order; the `_by_word` and `_children` indexes are pure functions of it
and are modelled by the lookup functions below. -/
structure Glossary where
  entries : List (String × GlossaryEntry)
deriving DecidableEq, Repr

/-- Lookup in the `_by_word` index (built at lines 154-161 by writing
`entry.word.lower() -> entry` in insertion order, so on duplicate
lowercased words the last write wins: search the reversed list). -/
def byWordLookup (g : Glossary) (w : String) : Option GlossaryEntry :=
  (g.entries.reverse.find? (fun p => lowerStr p.2.word == w)).map Prod.snd

/-- The `_children` index for one parent slug (lines 154-161): the keys
of the entries whose `parent` equals the given slug, in insertion
order. -/
def childrenIndex (g : Glossary) (p : String) : List String :=
  (g.entries.filter (fun q => q.2.parent == some p)).map Prod.fst

/-- `Glossary.children_of` (lines 210-213): resolve each indexed key
through `_entries`. -/
def children_of (g : Glossary) (slug : String) : List GlossaryEntry :=
  (childrenIndex g slug).filterMap
    (fun k => (g.entries.find? (fun q => q.1 == k)).map Prod.snd)

/-- `Glossary.top_level_entries` (lines 206-208): the entries with no
parent, in insertion order. -/
def top_level_entries (g : Glossary) : List GlossaryEntry :=
  (g.entries.map Prod.snd).filter (fun e => !has_parent e)

/-- First lookup stage of `Glossary.__getitem__`: exact key (slug)
match in `_entries`. -/
def findBySlug (g : Glossary) (key : String) : Option GlossaryEntry :=
  (g.entries.find? (fun p => p.1 == key)).map Prod.snd

/-- Second lookup stage: case-insensitive display-word match through
the `_by_word` index. -/
def findByWordCI (g : Glossary) (key : String) : Option GlossaryEntry :=
  byWordLookup g (lowerStr key)

/-- Third lookup stage: slug-normalised form of the key. -/
def findByNormSlug (g : Glossary) (key : String) : Option GlossaryEntry :=
  findBySlug g (to_slug key)

/-- `Glossary.__getitem__` (lines 223-247).  `none` models the
`KeyError` raised when all three stages miss. -/
def getItem (g : Glossary) (key : String) : Option GlossaryEntry :=
  match (g.entries.find? (fun p => p.1 == key)).map Prod.snd with
  | some e => some e
  | none =>
    match byWordLookup g (lowerStr key) with
    | some e => some e
    | none => (g.entries.find? (fun p => p.1 == to_slug key)).map Prod.snd

/-- `Glossary.get` (lines 259-264): `self[key]`, with the `KeyError`
caught and turned into the caller-supplied default. -/
def glossaryGet (g : Glossary) (key : String)
    (default : Option GlossaryEntry) : Option GlossaryEntry :=
  match getItem g key with
  | some e => some e
  | none => default

/-- The relation by which `sorted(..., key=lambda e: e.slug)` orders
entries: Python compares strings lexicographically by code point, which
is the lexicographic order on the character lists. -/
def slugLE (a b : GlossaryEntry) : Prop := a.slug.data ≤ b.slug.data

instance : DecidableRel slugLE :=
  fun a b => inferInstanceAs (Decidable (a.slug.data ≤ b.slug.data))

instance : IsTotal GlossaryEntry slugLE :=
  ⟨fun a b => le_total a.slug.data b.slug.data⟩

instance : IsTrans GlossaryEntry slugLE :=
  ⟨fun _ _ _ h h' => le_trans h h'⟩

/-- The strict version of `slugLE`, used to compare sorted entry lists
whose slugs are pairwise distinct. -/
def slugLT (a b : GlossaryEntry) : Prop := a.slug.data < b.slug.data

instance : IsAntisymm GlossaryEntry slugLT :=
  ⟨fun _ _ h h' => absurd h' (lt_asymm h)⟩

/-- `Glossary.__iter__` (lines 219-221): all entries sorted by slug.
Python's `sorted` is a stable sort by the key, which the stable
`insertionSort` under `slugLE` reproduces exactly. -/
def iterEntries (g : Glossary) : List GlossaryEntry :=
  List.insertionSort slugLE (g.entries.map Prod.snd)

/-! ### Renderer (src/json_to_adoc.py lines 51-178) -/

/-- Python truthiness of the `Optional[Glossary]` argument of
`render_entry`: `None` is falsy, and a `Glossary` is falsy exactly when
`len(glossary) == 0` (truthiness of a class with `__len__`). -/
def glossaryTruthy : Option Glossary → Bool
  | none => false
  | some g => !g.entries.isEmpty

/-- `glossary.get(slug)` as called inside `render_entry`, guarded by
`if glossary else None` (lines 107 and 126). -/
def glossaryGetOpt (glossary : Option Glossary) (key : String) :
    Option GlossaryEntry :=
  match glossary with
  | some g => if glossaryTruthy (some g) then glossaryGet g key none else none
  | none => none

/-- Metadata piece `(pl. X)` (lines 67-68, guarded by truthiness). -/
def pluralPart (e : GlossaryEntry) : List String :=
  match e.plural with
  | some p => if p ≠ "" then ["(pl. " ++ p ++ ")"] else []
  | none => []

/-- Metadata piece for origin, with the Latin/Greek source word when
present (lines 69-74). -/
def originPart (e : GlossaryEntry) : List String :=
  match e.origin with
  | some o =>
    if o ≠ "" then
      match e.latin_word with
      | some lw =>
        if lw ≠ "" then ["(" ++ o ++ " _" ++ upperStr lw ++ "_)"]
        else ["(" ++ o ++ ")"]
      | none => ["(" ++ o ++ ")"]
    else []
  | none => []

/-- Metadata piece `(part of speech)` (lines 75-76). -/
def speechPart (e : GlossaryEntry) : List String :=
  match e.part_of_speech with
  | some p => if p ≠ "" then ["(" ++ p ++ ")"] else []
  | none => []

/-- Metadata piece `/pronunciation/` (lines 77-78). -/
def pronPart (e : GlossaryEntry) : List String :=
  match e.pronunciation with
  | some p => if p ≠ "" then ["/" ++ p ++ "/"] else []
  | none => []

/-- The shared `[misleading]` tag, emitted when the archaic-usage or the
theological-term flag is truthy (lines 80-81). -/
def misleadingPart (e : GlossaryEntry) : List String :=
  if optTruthy e.archaic_usage || optTruthy e.theological_term then
    ["[misleading]"]
  else []

/-- The `[new word]` tag (lines 82-83). -/
def newWordPart (e : GlossaryEntry) : List String :=
  if e.new_word then ["[new word]"] else []

/-- The `metadata_parts` list of `render_entry` (lines 66-83), in the
fixed source order. -/
def metadataParts (e : GlossaryEntry) : List String :=
  pluralPart e ++ originPart e ++ speechPart e ++ pronPart e ++
    misleadingPart e ++ newWordPart e

/-- `lines[-1] = lines[-1] + ' +'`, guarded by `if lines:` (the soft
line-continuation marker added before appended blocks). -/
def addCont : List String → List String
  | [] => []
  | [x] => [x ++ " +"]
  | x :: y :: xs => x :: addCont (y :: xs)

/-- The `Opp. **WORD**` line (lines 106-112): resolve the antonym slug
through the glossary, falling back to the humanised slug. -/
def oppLine (e : GlossaryEntry) (glossary : Option Glossary) : String :=
  match e.opposite_slug with
  | some t =>
    let oppWord :=
      match glossaryGetOpt glossary t with
      | some oe => oe.word
      | none => replaceChar '-' ' ' t
    "Opp. **" ++ upperStr oppWord ++ "**"
  | none => ""

/-- One `xref` element of the `See also:` line (lines 125-128). -/
def seeAlsoRef (glossary : Option Glossary) (slug : String) : String :=
  let refWord :=
    match glossaryGetOpt glossary slug with
    | some re => re.word
    | none => replaceChar '-' ' ' slug
  "xref:" ++ slug ++ "[**" ++ upperStr refWord ++ "**]"

/-- The numbered-definition lines (lines 102-103). -/
def numberedDefs (ds : List String) : List String :=
  ds.enum.map (fun p => toString (p.1 + 1) ++ ". " ++ format_text p.2)

/-- All lines of `render_entry` before the recursive children pass
(lines 57-132): anchor, word line with metadata and definitions,
antonym, alternate translations, see-also. -/
def preChildLines (e : GlossaryEntry) (glossary : Option Glossary) :
    List String :=
  let wordUpper := upperStr e.word
  let metadataStr := joinSep " " (metadataParts e)
  let defLines :=
    match e.definitions with
    | [d] =>
      if metadataStr ≠ "" then
        ["**" ++ wordUpper ++ "** " ++ metadataStr ++ " = " ++ format_text d]
      else
        ["**" ++ wordUpper ++ "** = " ++ format_text d]
    | ds =>
      (if metadataStr ≠ "" then "**" ++ wordUpper ++ "** " ++ metadataStr ++ " ="
       else "**" ++ wordUpper ++ "** =") :: numberedDefs ds
  let lines := ("[[" ++ e.slug ++ "]]") :: defLines
  let lines :=
    if has_opposite e then addCont lines ++ [oppLine e glossary] else lines
  let lines :=
    if e.also_translated ≠ [] then
      addCont lines ++
        ["(also transl. " ++
          joinSep " and " (e.also_translated.map
            (fun w => "**" ++ upperStr w ++ "**")) ++ ")"]
    else lines
  let lines :=
    if e.see_also ≠ [] then
      addCont lines ++
        ["See also: " ++
          joinSep ", " (e.see_also.map (seeAlsoRef glossary))]
    else lines
  lines

/-- Fold step for one rendered child block (lines 138-149): indent its
non-blank lines with `{nbsp}{nbsp}`, add a continuation marker to the
previous line, and append. -/
def addChild (lines : List String) (content : String) : List String :=
  let indented :=
    ((splitOnChar '\n' content.data).map String.mk).filter
      (fun l => stripStr l ≠ "") |>.map (fun l => "{nbsp}{nbsp}" ++ l)
  if indented ≠ [] ∧ lines ≠ [] then addCont lines ++ indented
  else lines ++ indented

/-- The children to recurse into (lines 135-137): guarded by the
truthiness of the glossary argument. -/
def childList (e : GlossaryEntry) (glossary : Option Glossary) :
    List GlossaryEntry :=
  match glossary with
  | some g => if glossaryTruthy (some g) then children_of g e.slug else []
  | none => []

/-- `render_entry` (src/json_to_adoc.py lines 51-151), with an explicit
fuel bound on the recursion depth through children: `none` means the
fuel was exhausted, i.e. the Python recursion would still be running
(or have overflowed the stack) at that depth. -/
def render_entry : Nat → GlossaryEntry → Option Glossary → Option String
  | 0, _, _ => none
  | n + 1, e, glossary =>
    ((childList e glossary).foldlM
        (fun lines c => (render_entry n c glossary).map (addChild lines))
        (preChildLines e glossary)).map (joinSep "\n")

/-- The uppercased first letter of an entry's display word
(`entry.word[0].upper()`, line 165); `none` models the `IndexError` on
an empty word. -/
def firstLetter (e : GlossaryEntry) : Option Char :=
  e.word.data.head?.map Char.toUpper

/-- `firstLetter` with a default, used to state properties of runs that
are known to succeed. -/
def firstLetterD (e : GlossaryEntry) : Char :=
  (e.word.data.headD 'A').toUpper

/-- The accumulation loop of `render_glossary` (lines 162-176):
`cur` is `current_letter`, and each iteration appends the section
heading lines when the letter changes, then the rendered entry block
and a blank line. -/
def renderGlossaryGo (fuel : Nat) (g : Glossary) :
    Option Char → List GlossaryEntry → Option (List String)
  | _, [] => some []
  | cur, e :: es => do
    let c ← firstLetter e
    let heads :=
      if some c ≠ cur then
        (if cur.isSome then [""] else []) ++ ["== " ++ String.singleton c, ""]
      else []
    let body ← render_entry fuel e (some g)
    let rest ← renderGlossaryGo fuel g (some c) es
    pure (heads ++ [body, ""] ++ rest)

/-- The top-level entries in the order `render_glossary` walks them
(line 164: `sorted(top_level, key=lambda e: e.slug)`). -/
def sortedTopLevel (g : Glossary) : List GlossaryEntry :=
  List.insertionSort slugLE (top_level_entries g)

/-- The `lines` list assembled by `render_glossary` (lines 154-178). -/
def renderGlossaryLines (fuel : Nat) (g : Glossary) : Option (List String) :=
  renderGlossaryGo fuel g none (sortedTopLevel g)

/-- `render_glossary` (src/json_to_adoc.py lines 154-178). -/
def render_glossary (fuel : Nat) (g : Glossary) : Option String :=
  (renderGlossaryLines fuel g).map (joinSep "\n")

/-- Recogniser for a section-heading line (`== L`): the line starts with
`"== "`. -/
def isHeadingLine (s : String) : Bool :=
  decide (s.data.take 3 = ['=', '=', ' '])

/-- The headings demanded by the specification: walking the sequence of
first letters left to right, a heading `== L` is emitted exactly when
the letter differs from the previous one (the accumulator `cur`), and at
no other point. -/
def headingsFrom : Option Char → List Char → List String
  | _, [] => []
  | cur, c :: cs =>
    if some c = cur then headingsFrom (some c) cs
    else ("== " ++ String.singleton c) :: headingsFrom (some c) cs

/-! ### Concrete sample data used by the witnesses -/

/-- A minimal concrete entry (used by witnesses). -/
def eAbstract : GlossaryEntry :=
  { word := "abstract", slug := "abstract",
    definitions := ["apart from material things"] }

/-- A concrete entry with an uppercase-containing multi-word display
word (used by witnesses). -/
def eAPosteriori : GlossaryEntry :=
  { word := "a posteriori", slug := "a-posteriori",
    definitions := ["from what comes after"], origin := some "L." }

/-- A concrete parent entry (used by witnesses). -/
def eCelestial : GlossaryEntry :=
  { word := "celestial", slug := "celestial", definitions := ["heavenly"] }

/-- A concrete child entry of `eCelestial` (used by witnesses). -/
def eCelestialAngel : GlossaryEntry :=
  { word := "celestial angel", slug := "celestial-angel",
    definitions := ["an angel of the highest heaven"],
    parent := some "celestial" }

/-- A concrete entry with a dangling antonym reference (used by
witnesses). -/
def eAccede : GlossaryEntry :=
  { word := "accede", slug := "accede", definitions := ["to agree"],
    opposite_slug := some "recede", see_also := ["recede"] }

/-- A concrete two-level glossary (used by witnesses). -/
def gSample : Glossary :=
  ⟨[("celestial", eCelestial), ("a-posteriori", eAPosteriori),
    ("celestial-angel", eCelestialAngel), ("accede", eAccede)]⟩

/-- The same glossary records in a different load order (used by the C8
witness). -/
def gSampleReordered : Glossary :=
  ⟨[("accede", eAccede), ("celestial-angel", eCelestialAngel),
    ("a-posteriori", eAPosteriori), ("celestial", eCelestial)]⟩

/-- A concrete entry whose parent identifier dangles (used by the C10
witness). -/
def eOrphan : GlossaryEntry :=
  { word := "orphan", slug := "orphan", definitions := ["a stray entry"],
    parent := some "missing-parent" }

/-- A glossary containing the dangling-parent entry `eOrphan` (used by
the C10 witness). -/
def gOrphan : Glossary :=
  ⟨[("abstract", eAbstract), ("orphan", eOrphan)]⟩

/-- A one-entry glossary whose entry is its own parent: its parent
identifiers form a cycle (used by the C1 counterexample). -/
def eSelfParent : GlossaryEntry :=
  { word := "accommodate", slug := "accommodate",
    definitions := ["to adapt"], parent := some "accommodate" }

/-- The cyclic glossary built from `eSelfParent`. -/
def gCyclic : Glossary := ⟨[("accommodate", eSelfParent)]⟩

/-! ### Helper lemmas about the markup rewriter -/

theorem toNat_ofNatAux (n : Nat) (h : n.isValidChar) :
    (Char.ofNatAux n h).toNat = n := by
  simp [Char.ofNatAux, Char.toNat, UInt32.toNat, UInt32.ofNatTruncate]

/-- Uppercasing never produces the marker bar. -/
theorem toUpper_ne_bar (c : Char) (h : c ≠ '|') : Char.toUpper c ≠ '|' := by
  unfold Char.toUpper
  by_cases hr : c.toNat ≥ 97 ∧ c.toNat ≤ 122
  · simp only [hr, if_true, and_self]
    intro hc
    have hv : (c.toNat - 32).isValidChar := Or.inl (by omega)
    have h2 := congrArg Char.toNat hc
    rw [show Char.toNat '|' = 124 from rfl] at h2
    unfold Char.ofNat at h2
    rw [dif_pos hv, toNat_ofNatAux] at h2
    omega
  · simp only [hr, if_false]
    exact h

theorem bar_not_mem_upperChars {w : List Char} (h : '|' ∉ w) :
    '|' ∉ upperChars w := by
  intro hmem
  obtain ⟨c, hc, hup⟩ := List.mem_map.mp hmem
  exact toUpper_ne_bar c (fun hcb => h (hcb ▸ hc)) hup

theorem tryItalicAt_none_of_no_bar {l : List Char} (h : '|' ∉ l) :
    tryItalicAt l = none := by
  unfold tryItalicAt
  split
  · exact absurd (by simp) h
  · rfl

theorem tryPlainAt_none_of_no_bar {l : List Char} (h : '|' ∉ l) :
    tryPlainAt l = none := by
  unfold tryPlainAt
  split
  · exact absurd (by simp) h
  · rfl

theorem subItalicAux_nil (n : Nat) : subItalicAux n [] = [] := by
  cases n <;> rfl

theorem subPlainAux_nil (n : Nat) : subPlainAux n [] = [] := by
  cases n <;> rfl

/-- A text with no bar character passes through the italic pass
unchanged, at any fuel. -/
theorem subItalicAux_of_no_bar :
    ∀ (n : Nat) (l : List Char), '|' ∉ l → subItalicAux n l = l := by
  intro n
  induction n with
  | zero => intro l _; rfl
  | succ n ih =>
    intro l hl
    cases l with
    | nil => rfl
    | cons c cs =>
      rw [subItalicAux, tryItalicAt_none_of_no_bar hl,
        ih cs (fun hm => hl (List.mem_cons_of_mem c hm))]

/-- A text with no bar character passes through the plain pass
unchanged, at any fuel. -/
theorem subPlainAux_of_no_bar :
    ∀ (n : Nat) (l : List Char), '|' ∉ l → subPlainAux n l = l := by
  intro n
  induction n with
  | zero => intro l _; rfl
  | succ n ih =>
    intro l hl
    cases l with
    | nil => rfl
    | cons c cs =>
      rw [subPlainAux, tryPlainAt_none_of_no_bar hl,
        ih cs (fun hm => hl (List.mem_cons_of_mem c hm))]

/-- A definition string containing no marker bar is passed through
`format_text` unchanged. -/
theorem format_text_of_no_bar {s : String} (h : '|' ∉ s.data) :
    format_text s = s := by
  unfold format_text applyPlain applyItalic
  rw [subItalicAux_of_no_bar _ _ h, subPlainAux_of_no_bar _ _ h]

/-- The italic-keyword pattern matches `_|w|_` at the head of the text
and captures `w` when `w` is nonempty and bar-free. -/
theorem tryItalicAt_marker (w : List Char) (hw : w ≠ []) (hb : '|' ∉ w) :
    tryItalicAt ('_' :: '|' :: (w ++ ['|', '_'])) = some (w, []) := by
  have hall : ∀ x ∈ w, (fun c => decide (c ≠ '|')) x = true := by
    intro x hx
    simp only [decide_eq_true_eq]
    exact fun h => hb (h ▸ hx)
  have hdrop : (w ++ ['|', '_']).dropWhile (fun c => c ≠ '|') = ['|', '_'] := by
    rw [List.dropWhile_append, List.dropWhile_eq_nil_iff.mpr hall]
    rfl
  have htake : (w ++ ['|', '_']).takeWhile (fun c => c ≠ '|') = w := by
    rw [List.takeWhile_append, List.takeWhile_eq_self_iff.mpr hall]
    simp
  simp only [tryItalicAt, hdrop, htake]
  rw [if_neg (by simpa using hw)]

theorem subItalicAux_marker (n : Nat) (w : List Char) (hw : w ≠ [])
    (hb : '|' ∉ w) :
    subItalicAux (n + 1) ('_' :: '|' :: (w ++ ['|', '_']))
      = "_**".data ++ upperChars w ++ "**_".data := by
  rw [subItalicAux, tryItalicAt_marker w hw hb]
  simp [subItalicAux_nil]

/-- A whole italic-keyword marker `_|w|_` is rewritten by `format_text`
to `_**W**_` with the contents uppercased: the italic pass consumes it
and the plain pass then finds no bar to rewrite. -/
theorem format_text_italic_marker (w : List Char) (hw : w ≠ [])
    (hb : '|' ∉ w) :
    format_text (String.mk ('_' :: '|' :: (w ++ ['|', '_'])))
      = String.mk ("_**".data ++ upperChars w ++ "**_".data) := by
  have hl : ('_' :: '|' :: (w ++ ['|', '_'])).length = (w.length + 3) + 1 := by
    simp [List.length_append]
  unfold format_text applyItalic applyPlain
  rw [show (String.mk ('_' :: '|' :: (w ++ ['|', '_']))).data
      = '_' :: '|' :: (w ++ ['|', '_']) from rfl]
  rw [hl, subItalicAux_marker _ w hw hb]
  rw [subPlainAux_of_no_bar]
  intro hmem
  rcases List.mem_append.mp hmem with hmem2 | h3
  · rcases List.mem_append.mp hmem2 with h1 | h2
    · simp at h1
    · exact bar_not_mem_upperChars hb h2
  · simp at h3

/-- C2: `format_text` applies the italic-keyword substitution before the
plain-keyword substitution; an italic marker `_|w|_` with bar-free
nonempty contents becomes exactly `_**W**_` (contents uppercased, no
double-wrapping), so `"_|astroites|_"` rewrites to `"_**ASTROITES**_"`
and never to `"_**|ASTROITES|**_"`; the plain form alone is uppercased
and bold-wrapped the same way. -/
theorem c2_format_text_italic_before_plain :
    (∀ s : String, format_text s = String.mk (applyPlain (applyItalic s.data)))
    ∧ (∀ w : List Char, w ≠ [] → '|' ∉ w →
        format_text (String.mk ('_' :: '|' :: (w ++ ['|', '_'])))
          = String.mk ("_**".data ++ upperChars w ++ "**_".data))
    ∧ format_text "_|astroites|_" = "_**ASTROITES**_"
    ∧ format_text "_|astroites|_" ≠ "_**|ASTROITES|**_"
    ∧ format_text "|astroites|" = "**ASTROITES**" :=
  ⟨fun _ => rfl, format_text_italic_marker, by decide, by decide, by decide⟩

/-- Witness for C2 at the concrete input `"_|astroites|_"`. -/
theorem c2_witness :
    format_text (String.mk ('_' :: '|' :: ("astroites".data ++ ['|', '_'])))
      = String.mk ("_**".data ++ upperChars "astroites".data ++ "**_".data) :=
  c2_format_text_italic_before_plain.2.1 "astroites".data (by decide) (by decide)

theorem strlit_fuse : ("]]\n" : String) ++ "**" = "]]\n**" := rfl

/-- C6: rendering an entry with exactly one definition and no optional
metadata, flags, antonym, alternate translations, related identifiers,
or children produces exactly the anchor line followed by
`**WORD** = definition`, the display word uppercased and the definition
passed through unchanged when it contains no markers. -/
theorem c6_minimal_entry_render (g : Glossary) (slugv wordv defnv : String)
    (hbar : '|' ∉ defnv.data) (hch : children_of g slugv = []) :
    render_entry 1 { word := wordv, slug := slugv, definitions := [defnv] }
        (some g)
      = some ("[[" ++ slugv ++ "]]" ++ "\n" ++ "**" ++ upperStr wordv
          ++ "** = " ++ defnv) := by
  have hfmt : format_text defnv = defnv := format_text_of_no_bar hbar
  unfold render_entry childList preChildLines metadataParts pluralPart
    originPart speechPart pronPart misleadingPart newWordPart
  simp [has_opposite, joinSep, hch, hfmt, optTruthy, String.append_assoc]
  rw [← strlit_fuse, String.append_assoc]

/-- Witness for C6 at a concrete minimal entry. -/
theorem c6_witness :
    render_entry 1
        { word := "abstract", slug := "abstract",
          definitions := ["apart from material things"] }
        (some ⟨[]⟩)
      = some ("[[" ++ "abstract" ++ "]]" ++ "\n" ++ "**"
          ++ upperStr "abstract" ++ "** = " ++ "apart from material things") :=
  c6_minimal_entry_render ⟨[]⟩ "abstract" "abstract"
    "apart from material things" (by decide) (by decide)

/-! ### Helper lemmas about the metadata cluster -/

theorem head_append (a b : String) (c : Char) (h : a.data.head? = some c) :
    (a ++ b).data.head? = some c := by
  rw [String.data_append]
  cases ha : a.data with
  | nil => rw [ha] at h; simp at h
  | cons x xs =>
    rw [ha] at h
    simp only [List.head?] at h
    simp [List.cons_append, List.head?, h]

theorem pluralPart_head {e : GlossaryEntry} {s : String}
    (hs : s ∈ pluralPart e) : s.data.head? = some '(' := by
  unfold pluralPart at hs
  split at hs
  · split at hs
    · rw [List.mem_singleton.mp hs]
      exact head_append _ _ _ (head_append _ _ _ rfl)
    · simp at hs
  · simp at hs

theorem originPart_head {e : GlossaryEntry} {s : String}
    (hs : s ∈ originPart e) : s.data.head? = some '(' := by
  unfold originPart at hs
  split at hs
  · split at hs
    · split at hs
      · split at hs
        · rw [List.mem_singleton.mp hs]
          exact head_append _ _ _ (head_append _ _ _
            (head_append _ _ _ (head_append _ _ _ rfl)))
        · rw [List.mem_singleton.mp hs]
          exact head_append _ _ _ (head_append _ _ _ rfl)
      · rw [List.mem_singleton.mp hs]
        exact head_append _ _ _ (head_append _ _ _ rfl)
    · simp at hs
  · simp at hs

theorem speechPart_head {e : GlossaryEntry} {s : String}
    (hs : s ∈ speechPart e) : s.data.head? = some '(' := by
  unfold speechPart at hs
  split at hs
  · split at hs
    · rw [List.mem_singleton.mp hs]
      exact head_append _ _ _ (head_append _ _ _ rfl)
    · simp at hs
  · simp at hs

theorem pronPart_head {e : GlossaryEntry} {s : String}
    (hs : s ∈ pronPart e) : s.data.head? = some '/' := by
  unfold pronPart at hs
  split at hs
  · split at hs
    · rw [List.mem_singleton.mp hs]
      exact head_append _ _ _ (head_append _ _ _ rfl)
    · simp at hs
  · simp at hs

/-- The `[misleading]` tag appears in the metadata cluster exactly when
the archaic-usage or the theological-term flag is truthy. -/
theorem mem_misleading_iff (e : GlossaryEntry) :
    "[misleading]" ∈ metadataParts e
      ↔ (optTruthy e.archaic_usage || optTruthy e.theological_term) = true := by
  unfold metadataParts
  constructor
  · intro h
    simp only [List.mem_append] at h
    rcases h with ((((h | h) | h) | h) | h) | h
    · exact absurd (pluralPart_head h) (by decide)
    · exact absurd (originPart_head h) (by decide)
    · exact absurd (speechPart_head h) (by decide)
    · exact absurd (pronPart_head h) (by decide)
    · unfold misleadingPart at h
      by_cases hc :
        (optTruthy e.archaic_usage || optTruthy e.theological_term) = true
      · exact hc
      · rw [if_neg hc] at h; simp at h
    · unfold newWordPart at h
      by_cases hn : e.new_word
      · rw [if_pos hn] at h
        exact absurd (List.mem_singleton.mp h) (by decide)
      · rw [if_neg hn] at h; simp at h
  · intro hc
    simp only [List.mem_append]
    left; right
    unfold misleadingPart
    rw [if_pos hc]
    exact List.mem_singleton.mpr rfl

/-- The `[new word]` tag appears in the metadata cluster exactly when
`new_word` is set. -/
theorem mem_newword_iff (e : GlossaryEntry) :
    "[new word]" ∈ metadataParts e ↔ e.new_word = true := by
  unfold metadataParts
  constructor
  · intro h
    simp only [List.mem_append] at h
    rcases h with ((((h | h) | h) | h) | h) | h
    · exact absurd (pluralPart_head h) (by decide)
    · exact absurd (originPart_head h) (by decide)
    · exact absurd (speechPart_head h) (by decide)
    · exact absurd (pronPart_head h) (by decide)
    · unfold misleadingPart at h
      by_cases hc :
        (optTruthy e.archaic_usage || optTruthy e.theological_term) = true
      · rw [if_pos hc] at h
        exact absurd (List.mem_singleton.mp h) (by decide)
      · rw [if_neg hc] at h; simp at h
    · unfold newWordPart at h
      by_cases hn : e.new_word
      · exact hn
      · rw [if_neg hn] at h; simp at h
  · intro hn
    simp only [List.mem_append]
    right
    unfold newWordPart
    rw [if_pos hn]
    exact List.mem_singleton.mpr rfl

theorem metadataParts_flag_collapse (e : GlossaryEntry) (r r' : String)
    (hr : r ≠ "") (hr' : r' ≠ "") :
    metadataParts { e with archaic_usage := some r, theological_term := none }
      = metadataParts
          { e with archaic_usage := none, theological_term := some r' } := by
  unfold metadataParts pluralPart originPart speechPart pronPart
    misleadingPart newWordPart
  simp [optTruthy, hr, hr']

theorem render_entry_flag_collapse (fuel : Nat) (e : GlossaryEntry)
    (glossary : Option Glossary) (r r' : String) (hr : r ≠ "") (hr' : r' ≠ "") :
    render_entry fuel
        { e with archaic_usage := some r, theological_term := none } glossary
      = render_entry fuel
          { e with archaic_usage := none, theological_term := some r' }
          glossary := by
  cases fuel with
  | zero => rfl
  | succ n =>
    rw [render_entry, render_entry]
    have hc : childList
        { e with archaic_usage := some r, theological_term := none } glossary
        = childList
            { e with archaic_usage := none, theological_term := some r' }
            glossary := by
      unfold childList
      rfl
    have hp : preChildLines
        { e with archaic_usage := some r, theological_term := none } glossary
        = preChildLines
            { e with archaic_usage := none, theological_term := some r' }
            glossary := by
      unfold preChildLines oppLine has_opposite
      rw [metadataParts_flag_collapse e r r' hr hr']
    rw [hc, hp]

/-- C7: a single `[misleading]` tag appears in the metadata cluster iff
the archaic flag or the theological flag (or both) is truthy, and a
separate `[new word]` tag appears iff `new_word` is set; an entry whose
only flag is theological renders exactly the same as one whose only flag
is archaic, so the two conditions are indistinguishable in the output. -/
theorem c7_misleading_flag_collapse :
    (∀ (fuel : Nat) (e : GlossaryEntry) (glossary : Option Glossary)
        (r r' : String), r ≠ "" → r' ≠ "" →
      render_entry fuel
          { e with archaic_usage := some r, theological_term := none } glossary
        = render_entry fuel
            { e with archaic_usage := none, theological_term := some r' }
            glossary)
    ∧ (∀ e' : GlossaryEntry,
        ("[misleading]" ∈ metadataParts e'
          ↔ (optTruthy e'.archaic_usage || optTruthy e'.theological_term)
              = true)
        ∧ ("[new word]" ∈ metadataParts e' ↔ e'.new_word = true)) :=
  ⟨fun fuel e gl r r' hr hr' => render_entry_flag_collapse fuel e gl r r' hr hr',
   fun e' => ⟨mem_misleading_iff e', mem_newword_iff e'⟩⟩

/-- Witness for C7: at a concrete entry, archaic-only and
theological-only renderings coincide. -/
theorem c7_witness :
    render_entry 1
        { ({ word := "arcanum", slug := "arcanum",
             definitions := ["a secret"] } : GlossaryEntry) with
          archaic_usage := some "older sense", theological_term := none }
        (some ⟨[]⟩)
      = render_entry 1
          { ({ word := "arcanum", slug := "arcanum",
               definitions := ["a secret"] } : GlossaryEntry) with
            archaic_usage := none, theological_term := some "doctrinal" }
          (some ⟨[]⟩) :=
  c7_misleading_flag_collapse.1 1
    { word := "arcanum", slug := "arcanum", definitions := ["a secret"] }
    (some ⟨[]⟩) "older sense" "doctrinal" (by decide) (by decide)

/-- C3: lookup tries an exact slug match, then a case-insensitive
display-word match, then a match on the slug-normalised form of the
key, in that order; the first stage that hits provides the result. -/
theorem c3_lookup_order (g : Glossary) (key : String) :
    getItem g key
      = (findBySlug g key).orElse
          (fun _ => (findByWordCI g key).orElse
            (fun _ => findByNormSlug g key)) := by
  unfold getItem findBySlug findByWordCI findByNormSlug
  cases (g.entries.find? (fun p => p.1 == key)).map Prod.snd with
  | some e => rfl
  | none =>
    cases byWordLookup g (lowerStr key) with
    | some e => rfl
    | none => rfl

/-- C4: on a missing key the optional-get variant returns the supplied
default and never fails, while the indexing-operator variant signals the
`KeyError` (modelled as `none`); the two variants agree on which keys
are found. -/
theorem c4_get_vs_getitem (g : Glossary) (key : String) :
    (getItem g key = none →
      ∀ d : Option GlossaryEntry, glossaryGet g key d = d)
    ∧ (∀ e : GlossaryEntry, getItem g key = some e →
        ∀ d : Option GlossaryEntry, glossaryGet g key d = some e)
    ∧ ((glossaryGet g key none).isSome ↔ (getItem g key).isSome) := by
  refine ⟨?_, ?_, ?_⟩
  · intro h d
    unfold glossaryGet
    rw [h]
  · intro e h d
    unfold glossaryGet
    rw [h]
  · unfold glossaryGet
    cases getItem g key <;> simp

/-- Witness for C4: a missing key returns the caller-supplied default. -/
theorem c4_witness :
    glossaryGet gSample "nonexistent-entry" (some eAbstract)
      = some eAbstract :=
  (c4_get_vs_getitem gSample "nonexistent-entry").1 (by decide) (some eAbstract)

/-- C5: dangling references never abort rendering.  When the antonym
identifier resolves to no entry, the antonym line is `Opp. ` followed by
the bold-wrapped humanised identifier (hyphens to spaces, uppercased);
a dangling see-also identifier falls back to the humanised identifier
the same way; and `render_entry` still returns a result. -/
theorem c5_dangling_reference (g : Glossary) (e : GlossaryEntry) (t : String)
    (fuel : Nat) (hmiss : getItem g t = none) :
    (e.opposite_slug = some t →
      oppLine e (some g)
        = "Opp. **" ++ upperStr (replaceChar '-' ' ' t) ++ "**")
    ∧ seeAlsoRef (some g) t
        = "xref:" ++ t ++ "[**" ++ upperStr (replaceChar '-' ' ' t) ++ "**]"
    ∧ (children_of g e.slug = [] →
        (render_entry (fuel + 1) e (some g)).isSome) := by
  have hopt : glossaryGetOpt (some g) t = none := by
    unfold glossaryGetOpt glossaryGet
    dsimp only
    rw [hmiss]
    simp
  refine ⟨?_, ?_, ?_⟩
  · intro ht
    unfold oppLine
    rw [ht]
    dsimp only
    rw [hopt]
  · unfold seeAlsoRef
    rw [hopt]
  · intro hch
    rw [render_entry]
    have hcl : childList e (some g) = [] := by
      unfold childList
      dsimp only
      rw [hch]
      simp
    rw [hcl]
    simp

/-- Witness for C5: in `gSample` the slug `recede` is dangling, and the
entry `accede` that references it still renders, with the humanised
fallback. -/
theorem c5_witness :
    (oppLine eAccede (some gSample)
        = "Opp. **" ++ upperStr (replaceChar '-' ' ' "recede") ++ "**")
    ∧ seeAlsoRef (some gSample) "recede"
        = "xref:" ++ "recede" ++ "[**"
            ++ upperStr (replaceChar '-' ' ' "recede") ++ "**]"
    ∧ (render_entry 1 eAccede (some gSample)).isSome :=
  ⟨(c5_dangling_reference gSample eAccede "recede" 0 (by decide)).1 rfl,
   (c5_dangling_reference gSample eAccede "recede" 0 (by decide)).2.1,
   (c5_dangling_reference gSample eAccede "recede" 0 (by decide)).2.2
     (by decide)⟩

/-- C8: full iteration over a Glossary yields all entries sorted by
slug; under the glossary invariant that slugs are unique, the resulting
list is the same for any load order of the same records. -/
theorem c8_iteration_sorted_load_order_free (g g' : Glossary) :
    (iterEntries g).Sorted slugLE
    ∧ (iterEntries g).Perm (g.entries.map Prod.snd)
    ∧ ((g.entries.map Prod.snd).Perm (g'.entries.map Prod.snd) →
        ((g.entries.map Prod.snd).map GlossaryEntry.slug).Nodup →
        iterEntries g = iterEntries g') := by
  refine ⟨List.sorted_insertionSort slugLE _,
    List.perm_insertionSort slugLE _, ?_⟩
  intro hperm hnodup
  have hpg : (iterEntries g).Perm (g.entries.map Prod.snd) :=
    List.perm_insertionSort slugLE _
  have hpg' : (iterEntries g').Perm (g'.entries.map Prod.snd) :=
    List.perm_insertionSort slugLE _
  have h1 : (iterEntries g).Perm (iterEntries g') :=
    hpg.trans (hperm.trans hpg'.symm)
  have hnd : ((iterEntries g).map GlossaryEntry.slug).Nodup :=
    (List.Perm.nodup_iff (hpg.map GlossaryEntry.slug)).mpr hnodup
  have hnodup' : ((g'.entries.map Prod.snd).map GlossaryEntry.slug).Nodup :=
    (List.Perm.nodup_iff (hperm.map GlossaryEntry.slug)).mp hnodup
  have hnd' : ((iterEntries g').map GlossaryEntry.slug).Nodup :=
    (List.Perm.nodup_iff (hpg'.map GlossaryEntry.slug)).mpr hnodup'
  have hlt : (iterEntries g).Pairwise slugLT := by
    have hne := List.pairwise_map.mp hnd
    have hle : (iterEntries g).Pairwise slugLE :=
      List.sorted_insertionSort slugLE _
    exact (hle.and hne).imp
      (fun h => lt_of_le_of_ne h.1 (fun hd => h.2 (String.ext hd)))
  have hlt' : (iterEntries g').Pairwise slugLT := by
    have hne := List.pairwise_map.mp hnd'
    have hle : (iterEntries g').Pairwise slugLE :=
      List.sorted_insertionSort slugLE _
    exact (hle.and hne).imp
      (fun h => lt_of_le_of_ne h.1 (fun hd => h.2 (String.ext hd)))
  exact List.eq_of_perm_of_sorted h1 hlt hlt'

/-- Witness for C8: the sample glossary loaded in two different orders
iterates identically. -/
theorem c8_witness : iterEntries gSample = iterEntries gSampleReordered :=
  (c8_iteration_sorted_load_order_free gSample gSampleReordered).2.2
    (by decide) (by decide)

/-- C10: an entry whose parent identifier refers to no entry in the
loaded set (neither as a key nor as a slug) is excluded from
`top_level_entries` and is not reachable through `children_of` of any
entry of the glossary, so `render_glossary` never renders it. -/
theorem c10_dangling_parent_omitted (g : Glossary) (k p : String)
    (e : GlossaryEntry) (_hmem : (k, e) ∈ g.entries)
    (hpar : e.parent = some p)
    (hkeys : (g.entries.map Prod.fst).Nodup)
    (hdangle : ∀ q ∈ g.entries, q.1 ≠ p ∧ q.2.slug ≠ p) :
    e ∉ top_level_entries g
    ∧ ∀ q ∈ g.entries, e ∉ children_of g q.2.slug := by
  constructor
  · intro hin
    have h2 := (List.mem_filter.mp hin).2
    simp [has_parent, hpar] at h2
  · intro q hq hin
    unfold children_of at hin
    obtain ⟨k', hk'idx, hfind⟩ := List.mem_filterMap.mp hin
    obtain ⟨pair, hfind2, hsnd⟩ := Option.map_eq_some'.mp hfind
    have hpairmem := List.mem_of_find?_eq_some hfind2
    have hpairkey : pair.1 = k' := by
      have := List.find?_some hfind2
      simpa using this
    unfold childrenIndex at hk'idx
    obtain ⟨pr, hprf, hprk⟩ := List.mem_map.mp hk'idx
    have hprmem := (List.mem_filter.mp hprf).1
    have hprpar : pr.2.parent = some q.2.slug := by
      have := (List.mem_filter.mp hprf).2
      simpa using this
    have hpe : pr = pair :=
      List.inj_on_of_nodup_map hkeys hprmem hpairmem (by rw [hprk, hpairkey])
    have hep : e.parent = some q.2.slug := by
      rw [← hsnd, ← hpe]
      exact hprpar
    rw [hpar] at hep
    exact (hdangle q hq).2 (by injection hep with h; exact h.symm)

/-- Witness for C10: the dangling-parent entry of `gOrphan` is neither
top-level nor any entry's child. -/
theorem c10_witness :
    eOrphan ∉ top_level_entries gOrphan
    ∧ ∀ q ∈ gOrphan.entries, eOrphan ∉ children_of gOrphan q.2.slug :=
  c10_dangling_parent_omitted gOrphan "orphan" "missing-parent" eOrphan
    (by decide) rfl (by decide) (by decide)

/-- At every fuel, rendering the self-parenting entry of the cyclic
glossary is still unfinished: the recursion through `children_of` never
bottoms out. -/
theorem render_entry_cyclic_none (n : Nat) :
    render_entry n eSelfParent (some gCyclic) = none := by
  induction n with
  | zero => rfl
  | succ n ih =>
    rw [render_entry]
    have hcl : childList eSelfParent (some gCyclic) = [eSelfParent] := by
      decide
    rw [hcl, List.foldlM_cons, ih]
    rfl

/-- Counterexample to C1: for the loaded glossary whose single entry has
`parent_identifier` equal to its own identifier, `render_entry` does not
terminate — no recursion depth produces a result. -/
theorem c1_counterexample :
    ¬ ∃ (fuel : Nat) (s : String),
      render_entry fuel eSelfParent (some gCyclic) = some s := by
  rintro ⟨fuel, s, h⟩
  rw [render_entry_cyclic_none fuel] at h
  exact Option.noConfusion h

theorem foldlM_render_isSome (n : Nat) (gl : Option Glossary)
    (cs : List GlossaryEntry) (lines : List String)
    (h : ∀ c ∈ cs, (render_entry n c gl).isSome) :
    (cs.foldlM (fun ls c => (render_entry n c gl).map (addChild ls))
      lines).isSome := by
  induction cs generalizing lines with
  | nil => simp
  | cons c cs ih =>
    rw [List.foldlM_cons]
    obtain ⟨v, hv⟩ := Option.isSome_iff_exists.mp (h c (List.mem_cons_self c cs))
    rw [hv]
    exact ih _ (fun c' hc' => h c' (List.mem_cons_of_mem c hc'))

/-- C1 (amended): for a glossary whose parent hierarchy is strictly
two-level — no child entry has children of its own — `render_entry`
terminates on every entry of the glossary, with recursion depth 2
already sufficient; the original claim's allowance of cyclic parent
identifiers is refuted by `c1_counterexample`. -/
theorem c1_two_level_render_terminates (g : Glossary)
    (h2 : ∀ e ∈ g.entries.map Prod.snd,
      ∀ c ∈ children_of g e.slug, children_of g c.slug = [])
    (e : GlossaryEntry) (he : e ∈ g.entries.map Prod.snd) :
    (render_entry 2 e (some g)).isSome := by
  rw [show (2 : Nat) = 1 + 1 from rfl, render_entry]
  have hall : ∀ c ∈ childList e (some g),
      (render_entry 1 c (some g)).isSome := by
    intro c hc
    have hc' : c ∈ children_of g e.slug := by
      unfold childList at hc
      dsimp only at hc
      split at hc
      · exact hc
      · simp at hc
    have hz : children_of g c.slug = [] := h2 e he c hc'
    rw [render_entry]
    have hcl : childList c (some g) = [] := by
      unfold childList
      dsimp only
      rw [hz]
      simp
    rw [hcl]
    simp
  have hs := foldlM_render_isSome 1 (some g) (childList e (some g))
    (preChildLines e (some g)) hall
  obtain ⟨v, hv⟩ := Option.isSome_iff_exists.mp hs
  rw [hv]
  rfl

/-- Witness for the amended C1: the two-level sample glossary renders
its parent entry at depth 2. -/
theorem c1_witness : (render_entry 2 eCelestial (some gSample)).isSome :=
  c1_two_level_render_terminates gSample (by decide) eCelestial (by decide)

theorem twoPlus_addCont (a : String) (l : List String)
    (h : ∃ y t, l = a :: y :: t) : ∃ y t, addCont l = a :: y :: t := by
  obtain ⟨y, t, rfl⟩ := h
  cases t with
  | nil => exact ⟨y ++ " +", [], rfl⟩
  | cons z ts =>
    refine ⟨y, addCont (z :: ts), ?_⟩
    rfl

theorem twoPlus_append (a : String) (l m : List String)
    (h : ∃ y t, l = a :: y :: t) : ∃ y t, l ++ m = a :: y :: t := by
  obtain ⟨y, t, rfl⟩ := h
  exact ⟨y, t ++ m, rfl⟩

theorem twoPlus_step (a x : String) (c : Prop) [Decidable c] (l : List String)
    (h : ∃ y t, l = a :: y :: t) :
    ∃ y t, (if c then addCont l ++ [x] else l) = a :: y :: t := by
  split
  · exact twoPlus_append _ _ _ (twoPlus_addCont _ _ h)
  · exact h

theorem twoPlus_addChild (a s : String) (l : List String)
    (h : ∃ y t, l = a :: y :: t) :
    ∃ y t, addChild l s = a :: y :: t := by
  unfold addChild
  dsimp only
  split
  · exact twoPlus_append _ _ _ (twoPlus_addCont _ _ h)
  · exact twoPlus_append _ _ _ h

theorem preChildLines_twoPlus (e : GlossaryEntry) (gl : Option Glossary) :
    ∃ y t, preChildLines e gl = ("[[" ++ e.slug ++ "]]") :: y :: t := by
  unfold preChildLines
  dsimp only
  apply twoPlus_step
  apply twoPlus_step
  apply twoPlus_step
  split
  · split
    · exact ⟨_, [], rfl⟩
    · exact ⟨_, [], rfl⟩
  · exact ⟨_, _, rfl⟩

theorem foldlM_twoPlus (n : Nat) (gl : Option Glossary) (a : String) :
    ∀ (cs : List GlossaryEntry) (lines res : List String),
      (∃ y t, lines = a :: y :: t) →
      cs.foldlM (fun ls c => (render_entry n c gl).map (addChild ls)) lines
        = some res →
      ∃ y t, res = a :: y :: t := by
  intro cs
  induction cs with
  | nil =>
    intro lines res h hf
    simp only [List.foldlM_nil] at hf
    cases hf
    exact h
  | cons c cs ih =>
    intro lines res h hf
    rw [List.foldlM_cons] at hf
    cases hr : render_entry n c gl with
    | none => rw [hr] at hf; simp at hf
    | some v =>
      rw [hr] at hf
      simp only [Option.map_some', Option.some_bind] at hf
      exact ih _ _ (twoPlus_addChild a v lines h) hf

theorem joinSep_data_head (a y : String) (t : List String) :
    (joinSep "\n" (a :: y :: t)).data
      = a.data ++ ('\n' :: (joinSep "\n" (y :: t)).data) := by
  rw [joinSep]
  rw [String.data_append, String.data_append, List.append_assoc]
  rfl

theorem render_entry_not_heading (fuel : Nat) (e : GlossaryEntry)
    (gl : Option Glossary) (s : String)
    (h : render_entry fuel e gl = some s) : isHeadingLine s = false := by
  cases fuel with
  | zero => exact absurd h (by simp [render_entry])
  | succ n =>
    rw [render_entry] at h
    obtain ⟨lines, hf, hjoin⟩ := Option.map_eq_some'.mp h
    obtain ⟨y, t, rfl⟩ :=
      foldlM_twoPlus n gl ("[[" ++ e.slug ++ "]]") _ _ lines
        (preChildLines_twoPlus e gl) hf
    rw [← hjoin]
    unfold isHeadingLine
    apply decide_eq_false
    intro heq
    rw [joinSep_data_head] at heq
    rw [show ("[[" ++ e.slug ++ "]]").data
        = '[' :: '[' :: (e.slug.data ++ "]]".data) from by
      rw [String.data_append, String.data_append]; rfl] at heq
    simp [List.take_succ_cons] at heq

theorem isHeadingLine_heading (c : Char) :
    isHeadingLine ("== " ++ String.singleton c) = true := by
  unfold isHeadingLine
  apply decide_eq_true
  rw [String.data_append]
  rfl

theorem firstLetterD_of_firstLetter {e : GlossaryEntry} {c : Char}
    (h : firstLetter e = some c) : firstLetterD e = c := by
  unfold firstLetter at h
  unfold firstLetterD
  cases hw : e.word.data with
  | nil => rw [hw] at h; simp at h
  | cons x xs =>
    rw [hw] at h
    simp only [List.head?, Option.map_some'] at h
    simp only [List.headD]
    exact Option.some.inj h

theorem renderGlossaryGo_filter (fuel : Nat) (g : Glossary) :
    ∀ (l : List GlossaryEntry) (cur : Option Char) (lines : List String),
      renderGlossaryGo fuel g cur l = some lines →
      lines.filter isHeadingLine = headingsFrom cur (l.map firstLetterD) := by
  intro l
  induction l with
  | nil =>
    intro cur lines h
    cases h
    rfl
  | cons e es ih =>
    intro cur lines h
    rw [renderGlossaryGo] at h
    simp only [Option.bind_eq_bind] at h
    cases hl : firstLetter e with
    | none => rw [hl] at h; simp at h
    | some c =>
      rw [hl] at h
      simp only [Option.some_bind] at h
      cases hb : render_entry fuel e (some g) with
      | none => rw [hb] at h; simp at h
      | some body =>
        rw [hb] at h
        simp only [Option.some_bind] at h
        cases hr : renderGlossaryGo fuel g (some c) es with
        | none => rw [hr] at h; simp at h
        | some rest =>
          rw [hr] at h
          simp only [Option.some_bind, Option.pure_def,
            Option.some.injEq] at h
          subst h
          rw [List.map_cons, headingsFrom]
          rw [firstLetterD_of_firstLetter hl]
          rw [List.filter_append, List.filter_append]
          have hbody : List.filter isHeadingLine [body, ""] = [] := by
            simp [List.filter_cons,
              render_entry_not_heading fuel e (some g) body hb,
              show isHeadingLine "" = false from rfl]
          rw [hbody, ih (some c) rest hr]
          by_cases hc : some c = cur
          · rw [if_pos hc]
            have hh : (if some c ≠ cur then
                (if cur.isSome then [""] else [])
                  ++ ["== " ++ String.singleton c, ""] else [])
                = ([] : List String) := by
              rw [if_neg (by simpa using hc)]
            rw [hh]
            rfl
          · rw [if_neg hc]
            have hh : (if some c ≠ cur then
                (if cur.isSome then [""] else [])
                  ++ ["== " ++ String.singleton c, ""] else [])
                = (if cur.isSome then [""] else [])
                  ++ ["== " ++ String.singleton c, ""] := by
              rw [if_pos hc]
            rw [hh, List.filter_append]
            have h1 : List.filter isHeadingLine
                (if cur.isSome then [""] else []) = [] := by
              split <;> rfl
            have h2 : List.filter isHeadingLine
                ["== " ++ String.singleton c, ""]
                = ["== " ++ String.singleton c] := by
              simp [List.filter_cons, isHeadingLine_heading c,
                show isHeadingLine "" = false from rfl]
            rw [h1, h2]
            rfl

/-- C9: document-level rendering walks the top-level entries sorted by
slug (a permutation of `top_level_entries`, in sorted order) and the
heading lines of the produced `lines` are exactly those demanded by
"emit `== L` when the leading letter differs from the previous
top-level entry's" — and no other line is a heading. -/
theorem c9_section_headings (fuel : Nat) (g : Glossary) (lines : List String)
    (h : renderGlossaryLines fuel g = some lines) :
    lines.filter isHeadingLine
      = headingsFrom none ((sortedTopLevel g).map firstLetterD)
    ∧ (sortedTopLevel g).Sorted slugLE
    ∧ (sortedTopLevel g).Perm (top_level_entries g) := by
  refine ⟨?_, List.sorted_insertionSort slugLE _,
    List.perm_insertionSort slugLE _⟩
  unfold renderGlossaryLines at h
  exact renderGlossaryGo_filter fuel g (sortedTopLevel g) none lines h

/-- Witness for C9 on the concrete sample glossary. -/
theorem c9_witness :
    ((renderGlossaryLines 2 gSample).getD []).filter isHeadingLine
      = headingsFrom none ((sortedTopLevel gSample).map firstLetterD) :=
  (c9_section_headings 2 gSample _ (by decide)).1
